import Mathlib

/-!
Shallow embedding of the automatic-differentiation analysis utilities in
lib/SILOptimizer/Utils/Differentiation/Common.cpp.

The SIL instruction/value graph is modelled as a read-only list of numbered
instructions over a closed variant of the instruction shapes this file
inspects (call, tuple construction, tuple decomposition, pointer-to-address
conversion, index-address arithmetic, return).  Fatal LLVM/SIL assertions
(duplicate destructure users, SmallVector out-of-bounds indexing, the
no-active-results postcondition, isa-on-null) are modelled as Except.error;
expected structural mismatches are modelled as Option.none, mirroring the
two error classes of the source.
-/

set_option autoImplicit false

/-- A SIL type; the analysed code only ever asks whether a type is a tuple
type, so other types are collapsed to tagged scalars. -/
inductive SILType where
  | tupleType (elems : List SILType)
  | scalarType (tag : Nat)

/-- The check performed by value.getType().is TupleType in the source. -/
def SILType.isTupleType : SILType → Bool
  | .tupleType _ => true
  | .scalarType _ => false

/-- An SSA value: either the idx-th result of a numbered instruction or a
function argument (a value with no defining instruction). -/
inductive SILValue where
  | instResult (inst : Nat) (idx : Nat)
  | funcArg (n : Nat)
deriving DecidableEq

/-- Result conventions of the callee signature; isFormalDirect
distinguishes the single indirect convention from the direct ones. -/
inductive ResultConvention where
  | indirect
  | owned
  | unowned
  | autoreleased
deriving DecidableEq

/-- One declared result of a function signature. -/
structure SILResultInfo where
  convention : ResultConvention
deriving DecidableEq

/-- SILResultInfo.isFormalDirect from the SIL type system: every
convention except the indirect one is formally direct. -/
def SILResultInfo.isFormalDirect (r : SILResultInfo) : Bool :=
  match r.convention with
  | .indirect => false
  | _ => true

/-- The closed variant of instruction shapes inspected by the analysed
code.  An apply carries its callee signature data and its argument lists;
indirect results and remaining arguments are kept as the two lists the
source accesses through getIndirectSILResults and
getArgumentsWithoutIndirectResults. -/
inductive InstKind where
  | apply (semanticsAttrs : List String) (calleeResults : List SILResultInfo)
      (indirectSILResults : List SILValue)
      (argumentsWithoutIndirectResults : List SILValue)
  | destructureTuple (operand : SILValue) (numResults : Nat)
  | pointerToAddress (operand : SILValue)
  | indexAddr (base : SILValue) (addend : SILValue)
  | tupleInst (elements : List SILValue)
  | returnInst (operand : SILValue)
  | otherInst (operands : List SILValue)
deriving DecidableEq

/-- The operand values of an instruction, in operand order (for an apply:
indirect-result addresses first, as in the SIL calling convention). -/
def InstKind.operandsOf : InstKind → List SILValue
  | .apply _ _ ind args => ind ++ args
  | .destructureTuple op _ => [op]
  | .pointerToAddress op => [op]
  | .indexAddr b a => [b, a]
  | .tupleInst es => es
  | .returnInst op => [op]
  | .otherInst ops => ops

/-- A function body: its numbered instructions plus the typing of values.
The graph is read-only for the analysis, exactly as in the source. -/
structure SILGraph where
  insts : List (Nat × InstKind)
  valueType : SILValue → SILType

/-- Look up the instruction with a given number. -/
def SILGraph.find? (g : SILGraph) (i : Nat) : Option InstKind :=
  (g.insts.find? (fun p => p.1 == i)).map (fun p => p.2)

/-- The use list of a value: one edge per operand occurrence, discovered
by scanning the instruction list (design note: consumers are found through
a use-edge relation, not owned pointers). -/
def SILGraph.uses (g : SILGraph) (v : SILValue) : List (Nat × InstKind) :=
  g.insts.flatMap (fun p => (p.2.operandsOf.filter (fun o => o == v)).map (fun _ => p))

/-- SILValue.getDefiningInstruction: the defining instruction of an
instruction result, or none for a function argument. -/
def SILValue.getDefiningInstruction (v : SILValue) (g : SILGraph) :
    Option (Nat × InstKind) :=
  match v with
  | .instResult i _ =>
    match g.find? i with
    | some k => some (i, k)
    | none => none
  | .funcArg _ => none

/-- View of an ApplyInst: its number together with the apply payload. -/
structure ApplyInst where
  id : Nat
  semanticsAttrs : List String
  calleeResults : List SILResultInfo
  indirectSILResults : List SILValue
  argumentsWithoutIndirectResults : List SILValue
deriving DecidableEq

/-- The single SSA result value of an apply instruction. -/
def ApplyInst.value (a : ApplyInst) : SILValue :=
  .instResult a.id 0

/-- SILFunction.hasSemantics on the callee of the apply. -/
def ApplyInst.hasSemantics (a : ApplyInst) (s : String) : Bool :=
  a.semanticsAttrs.contains s

/-- View of a DestructureTupleInst: its number, tuple operand and result
count. -/
structure DestructureTupleInst where
  id : Nat
  operand : SILValue
  numResults : Nat
deriving DecidableEq

/-- The result values of a destructure_tuple, in declared order. -/
def DestructureTupleInst.getResults (d : DestructureTupleInst) : List SILValue :=
  (List.range d.numResults).map (fun k => .instResult d.id k)

/-- View of a PointerToAddressInst. -/
structure PointerToAddressInst where
  id : Nat
  operand : SILValue
deriving DecidableEq

/-- View of an IndexAddrInst; getOperand 0 is the base address. -/
structure IndexAddrInst where
  id : Nat
  base : SILValue
  addend : SILValue
deriving DecidableEq

/-- dyn_cast to ApplyInst on a value: succeeds when the value is the
result of an apply instruction. -/
def dynCastApplyInst (g : SILGraph) (v : SILValue) : Option ApplyInst :=
  match v with
  | .instResult i 0 =>
    match g.find? i with
    | some (.apply sem res ind args) => some ⟨i, sem, res, ind, args⟩
    | _ => none
  | _ => none

/-- dyn_cast to PointerToAddressInst on a value. -/
def dynCastPointerToAddressInst (g : SILGraph) (v : SILValue) :
    Option PointerToAddressInst :=
  match v with
  | .instResult i 0 =>
    match g.find? i with
    | some (.pointerToAddress op) => some ⟨i, op⟩
    | _ => none
  | _ => none

/-- dyn_cast to IndexAddrInst on a value. -/
def dynCastIndexAddrInst (g : SILGraph) (v : SILValue) : Option IndexAddrInst :=
  match v with
  | .instResult i 0 =>
    match g.find? i with
    | some (.indexAddr b a) => some ⟨i, b, a⟩
    | _ => none
  | _ => none

/-- dyn_cast to DestructureTupleInst on a (non-null) instruction. -/
def dynCastDestructureTupleInst (p : Nat × InstKind) : Option DestructureTupleInst :=
  match p with
  | (i, .destructureTuple op n) => some ⟨i, op, n⟩
  | _ => none

/-- Lines 26-28: recognize the array.uninitialized_intrinsic semantics tag
on the callee of the apply. -/
def isArrayLiteralIntrinsic (ai : ApplyInst) : Bool :=
  ai.hasSemantics "array.uninitialized_intrinsic"

/-- Lines 30-35: the apply, if the value is an apply of the array literal
intrinsic. -/
def getAllocateUninitializedArrayIntrinsic (g : SILGraph) (v : SILValue) :
    Option ApplyInst :=
  match dynCastApplyInst g v with
  | some ai => if isArrayLiteralIntrinsic ai then some ai else none
  | none => none

/-- Lines 40-42: find the pointer_to_address producer, peering through a
single index_addr level.  A value cannot be the result of both instruction
kinds, so assigning from the index_addr base when the value is an
index_addr is the same conditional overwrite the source performs. -/
def elementAddressPointerToAddress (g : SILGraph) (v : SILValue) :
    Option PointerToAddressInst :=
  match dynCastIndexAddrInst g v with
  | some iai => dynCastPointerToAddressInst g iai.base
  | none => dynCastPointerToAddressInst g v

/-- Lines 37-52.  The source applies dyn_cast (not dyn_cast_or_null) to
ptai.getOperand().getDefiningInstruction(); when that pointer operand has
no defining instruction this is the LLVM isa-used-on-a-null-pointer
assertion, modelled as an error. -/
def getAllocateUninitializedArrayIntrinsicElementAddress (g : SILGraph)
    (v : SILValue) : Except String (Option ApplyInst) :=
  match elementAddressPointerToAddress g v with
  | none => .ok none
  | some ptai =>
    match ptai.operand.getDefiningInstruction g with
    | none => .error "isa used on a null pointer"
    | some defInst =>
      match dynCastDestructureTupleInst defInst with
      | some dti =>
        match getAllocateUninitializedArrayIntrinsic g dti.operand with
        | some ai => .ok (some ai)
        | none => .ok none
      | none => .ok none

/-- Follows the wording of the spec (section 4.3): the exact chain shape
allocate-array(tag) to decompose-tuple to convert-to-address, with at most
one element-offset computation unwound, for which findArrayAllocation is
specified to return the allocating call. -/
def arrayElementAddressChainSpec (g : SILGraph) (v : SILValue) (ai : ApplyInst) :
    Bool :=
  let ptr? : Option SILValue :=
    match dynCastPointerToAddressInst g v with
    | some p => some p.operand
    | none =>
      match dynCastIndexAddrInst g v with
      | some iai =>
        match dynCastPointerToAddressInst g iai.base with
        | some p => some p.operand
        | none => none
      | none => none
  match ptr? with
  | none => false
  | some ptr =>
    match ptr.getDefiningInstruction g with
    | some (_, .destructureTuple tupleOp _) =>
      match dynCastApplyInst g tupleOp with
      | some a => isArrayLiteralIntrinsic a && decide (a = ai)
      | none => false
    | _ => false

/-- The destructure_tuple users of a value, in use-list order. -/
def dtiUsers (g : SILGraph) (v : SILValue) : List DestructureTupleInst :=
  (g.uses v).filterMap dynCastDestructureTupleInst

/-- Lines 58-66: the scan over the use list.  The accumulator is the
tentatively recorded destructure_tuple user; finding a second one is the
fatal assertion of line 61. -/
def destructureTupleUserLoop :
    List (Nat × InstKind) → Option DestructureTupleInst →
    Except String (Option DestructureTupleInst)
  | [], result => .ok result
  | u :: rest, result =>
    match dynCastDestructureTupleInst u with
    | some dti =>
      match result with
      | some _ => .error "There should only be one destructure_tuple user of a tuple"
      | none => destructureTupleUserLoop rest (some dti)
    | none => destructureTupleUserLoop rest result

/-- Lines 54-68: getSingleDestructureTupleUser.  Non-tuple values return
none before the use list is scanned. -/
def getSingleDestructureTupleUser (g : SILGraph) (value : SILValue) :
    Except String (Option DestructureTupleInst) :=
  if (g.valueType value).isTupleType = false then .ok none
  else destructureTupleUserLoop (g.uses value) none

/-- Lines 70-79: forEachApplyDirectResult, with the callback in explicit
state-passing form (the C++ callback mutates captured state). -/
def forEachApplyDirectResult {σ : Type} (g : SILGraph) (ai : ApplyInst)
    (resultCallback : SILValue → σ → σ) (s : σ) : Except String σ :=
  if (g.valueType ai.value).isTupleType = false then .ok (resultCallback ai.value s)
  else
    match getSingleDestructureTupleUser g ai.value with
    | .error e => .error e
    | .ok (some dti) => .ok (dti.getResults.foldl (fun acc r => resultCallback r acc) s)
    | .ok none => .ok s

/-- Lines 119-122: the direct-result list collected through
forEachApplyDirectResult with an appending callback. -/
def applyDirectResults (g : SILGraph) (ai : ApplyInst) :
    Except String (List SILValue) :=
  forEachApplyDirectResult g ai (fun v l => l ++ [v]) []

/-- Host-compiler data of the enclosing SILFunction consumed by
collectAllFormalResultsInTypeOrder: its declared result conventions, its
indirect result arguments and the operand of its return terminator. -/
structure SILFunction where
  graph : SILGraph
  resultConvs : List SILResultInfo
  indirectResults : List SILValue
  returnOperand : SILValue

/-- Lines 88-94: the direct results of a function: the elements of the
tuple instruction defining the returned value, or the returned value
itself. -/
def functionDirectResults (f : SILFunction) : List SILValue :=
  match f.returnOperand.getDefiningInstruction f.graph with
  | some (_, .tupleInst elems) => elems
  | _ => [f.returnOperand]

/-- Lines 95-98: merge direct and indirect results following the declared
conventions; advancing dirResIdx or indResIdx past the end of its vector
is the SmallVector bounds assertion, modelled as an error. -/
def mergeFormalResults :
    List SILResultInfo → List SILValue → List SILValue →
    Except String (List SILValue)
  | [], _, _ => .ok []
  | r :: rs, dirResults, indResults =>
    if r.isFormalDirect then
      match dirResults with
      | [] => .error "SmallVector index out of bounds"
      | d :: dirRest =>
        match mergeFormalResults rs dirRest indResults with
        | .ok res => .ok (d :: res)
        | .error e => .error e
    else
      match indResults with
      | [] => .error "SmallVector index out of bounds"
      | i :: indRest =>
        match mergeFormalResults rs dirResults indRest with
        | .ok res => .ok (i :: res)
        | .error e => .error e

/-- Lines 81-99: collectAllFormalResultsInTypeOrder. -/
def collectAllFormalResultsInTypeOrder (f : SILFunction) :
    Except String (List SILValue) :=
  mergeFormalResults f.resultConvs (functionDirectResults f) f.indirectResults

/-- Modelled from the spec: the parent differentiation index specification
is an opaque pass-through for this analysis (only handed to the activity
oracle); SILAutoDiffIndices itself is declared outside the analysed file. -/
structure SILAutoDiffIndices where
  source : Nat
  parameters : List Nat
deriving DecidableEq

/-- Modelled from the spec: the activity analysis is an external oracle
with operation isActive(value, indexSpecification), a pure query
(DifferentiableActivityInfo is declared outside the analysed file). -/
structure DifferentiableActivityInfo where
  isActive : SILValue → SILAutoDiffIndices → Bool

/-- Modelled from the spec: indirect results are consumed from the start
of the indirect-result argument list in order, i.e. the SIL argument index
of the first indirect result is 0 (SILFunctionConventions is declared
outside the analysed file; in SIL the indirect results are the leading
arguments). -/
def getSILArgIndexOfFirstIndirectResult (_ai : ApplyInst) : Nat := 0

/-- Lines 111-116: record the positions of active arguments, walking the
arguments without indirect results with a running position counter. -/
def paramIndicesLoop (act : SILValue → Bool) :
    List SILValue → Nat → List Nat
  | [], _ => []
  | a :: args, currentParamIdx =>
    if act a then currentParamIdx :: paramIndicesLoop act args (currentParamIdx + 1)
    else paramIndicesLoop act args (currentParamIdx + 1)

/-- Lines 126-143: the result-merging loop of the collector.  Each merged
position consumes the next direct or indirect contribution (indexing past
the end of either vector is the SmallVector bounds assertion), pushes it
on results, queries the oracle on the pushed value and records the
declared position when active. -/
def collectLoop (act : SILValue → Bool) :
    List SILResultInfo → Nat → List SILValue → List SILValue →
    Except String (List SILValue × List Nat)
  | [], _, _, _ => .ok ([], [])
  | r :: rs, idx, dirResults, indResults =>
    if r.isFormalDirect then
      match dirResults with
      | [] => .error "SmallVector index out of bounds"
      | d :: dirRest =>
        match collectLoop act rs (idx + 1) dirRest indResults with
        | .ok (res, resIdxs) =>
          .ok (d :: res, if act d then idx :: resIdxs else resIdxs)
        | .error e => .error e
    else
      match indResults with
      | [] => .error "SmallVector index out of bounds"
      | i :: indRest =>
        match collectLoop act rs (idx + 1) dirResults indRest with
        | .ok (res, resIdxs) =>
          .ok (i :: res, if act i then idx :: resIdxs else resIdxs)
        | .error e => .error e

/-- The values queried by the llvm any_of scan of the final assertion
(lines 146-148): the merged results up to and including the first active
one (all of them when none is active). -/
def anyOfQueries (act : SILValue → Bool) : List SILValue → List SILValue
  | [] => []
  | v :: vs => if act v then [v] else v :: anyOfQueries act vs

/-- The three outputs of the collector, all in callee type order. -/
structure CollectOutput where
  results : List SILValue
  paramIndices : List Nat
  resultIndices : List Nat
deriving DecidableEq

/-- Lines 101-149: collectMinimalIndicesForFunctionCall, instrumented with
the sequence of values passed to activityInfo.isActive: the arguments
without indirect results (lines 112-116), then each merged result as it is
pushed (lines 131-142), then the any_of scan of the final assertion.  The
assertions of lines 145-148 are modelled as errors. -/
def collectMinimalIndicesWithQueries (g : SILGraph) (ai : ApplyInst)
    (parentIndices : SILAutoDiffIndices)
    (activityInfo : DifferentiableActivityInfo) :
    Except String (CollectOutput × List SILValue) :=
  let act := fun v => activityInfo.isActive v parentIndices
  let paramIndices := paramIndicesLoop act ai.argumentsWithoutIndirectResults 0
  match applyDirectResults g ai with
  | .error e => .error e
  | .ok directResults =>
    let indirectResults :=
      ai.indirectSILResults.drop (getSILArgIndexOfFirstIndirectResult ai)
    match collectLoop act ai.calleeResults 0 directResults indirectResults with
    | .error e => .error e
    | .ok (results, resultIndices) =>
      if results.length = ai.calleeResults.length then
        if results.any act then
          .ok (⟨results, paramIndices, resultIndices⟩,
            ai.argumentsWithoutIndirectResults ++ results ++ anyOfQueries act results)
        else .error "Make sure the function call has active results"
      else .error "results.size must equal the callee declared result count"

/-- The collector itself: the outputs of collectMinimalIndicesWithQueries. -/
def collectMinimalIndicesForFunctionCall (g : SILGraph) (ai : ApplyInst)
    (parentIndices : SILAutoDiffIndices)
    (activityInfo : DifferentiableActivityInfo) :
    Except String CollectOutput :=
  (collectMinimalIndicesWithQueries g ai parentIndices activityInfo).map Prod.fst

/-- The oracle-query sequence of one collector invocation. -/
def collectMinimalIndicesQueryTrace (g : SILGraph) (ai : ApplyInst)
    (parentIndices : SILAutoDiffIndices)
    (activityInfo : DifferentiableActivityInfo) :
    Except String (List SILValue) :=
  (collectMinimalIndicesWithQueries g ai parentIndices activityInfo).map Prod.snd

/-! Concrete instruction graphs used to instantiate the theorems below. -/

/-- A parent index specification (contents are opaque to the analysis). -/
def parentIndices0 : SILAutoDiffIndices := ⟨0, [0]⟩

/-- An oracle reporting every value inactive. -/
def inactiveOracle : DifferentiableActivityInfo := ⟨fun _ _ => false⟩

/-- An oracle reporting every value active. -/
def allActiveOracle : DifferentiableActivityInfo := ⟨fun _ _ => true⟩

/-- Scenario A of the spec: a call with two formally direct results,
packaged as one tuple value and decomposed by a destructure_tuple. -/
def scenarioAGraph : SILGraph where
  insts := [(0, .apply [] [⟨.owned⟩, ⟨.owned⟩] [] [.funcArg 0, .funcArg 1]),
            (1, .destructureTuple (.instResult 0 0) 2)]
  valueType := fun v =>
    if v = .instResult 0 0 then .tupleType [.scalarType 0, .scalarType 1]
    else .scalarType 0

/-- The apply of scenario A. -/
def scenarioAApply : ApplyInst :=
  ⟨0, [], [⟨.owned⟩, ⟨.owned⟩], [], [.funcArg 0, .funcArg 1]⟩

/-- The destructure_tuple of scenario A. -/
def scenarioADti : DestructureTupleInst := ⟨1, .instResult 0 0, 2⟩

/-- Scenario A oracle: argument 0 active, argument 1 inactive, result 0
inactive, result 1 active. -/
def activityA : DifferentiableActivityInfo :=
  ⟨fun v _ =>
    if v = .funcArg 0 then true else if v = .instResult 1 1 then true else false⟩

/-- Expected scenario A output: parameter indices 0, result indices 1. -/
def scenarioAOutput : CollectOutput :=
  ⟨[.instResult 1 0, .instResult 1 1], [0], [1]⟩

/-- Scenario B of the spec: one formally direct and one formally indirect
result, the indirect one supplied through the address argument funcArg 9. -/
def scenarioBGraph : SILGraph where
  insts := [(3, .apply [] [⟨.owned⟩, ⟨.indirect⟩] [.funcArg 9] [.funcArg 4])]
  valueType := fun _ => .scalarType 0

/-- The apply of scenario B. -/
def scenarioBApply : ApplyInst :=
  ⟨3, [], [⟨.owned⟩, ⟨.indirect⟩], [.funcArg 9], [.funcArg 4]⟩

/-- Scenario B oracle: only the indirect result buffer is active. -/
def activityB : DifferentiableActivityInfo :=
  ⟨fun v _ => v == SILValue.funcArg 9⟩

/-- Expected scenario B output: result index 1, no active parameters. -/
def scenarioBOutput : CollectOutput :=
  ⟨[.instResult 3 0, .funcArg 9], [], [1]⟩

/-- A call with one declared direct result and no active values. -/
def scenarioC2Graph : SILGraph where
  insts := [(2, .apply [] [⟨.owned⟩] [] [.funcArg 0])]
  valueType := fun _ => .scalarType 0

/-- The apply of the no-active-results scenario. -/
def scenarioC2Apply : ApplyInst := ⟨2, [], [⟨.owned⟩], [], [.funcArg 0]⟩

/-- A pointer_to_address whose pointer operand is a function argument,
i.e. has no defining instruction. -/
def scenarioC5Graph : SILGraph where
  insts := [(5, .pointerToAddress (.funcArg 0))]
  valueType := fun _ => .scalarType 0

/-- The address value of the null-defining-instruction scenario. -/
def scenarioC5Value : SILValue := .instResult 5 0

/-- A call declaring two direct results whose direct value is not
tuple-typed: the direct-contribution list has a single element. -/
def scenarioC6Graph : SILGraph where
  insts := [(6, .apply [] [⟨.owned⟩, ⟨.owned⟩] [] [])]
  valueType := fun _ => .scalarType 0

/-- The apply of the exhausted-direct-contribution scenario. -/
def scenarioC6Apply : ApplyInst := ⟨6, [], [⟨.owned⟩, ⟨.owned⟩], [], []⟩

/-- A call whose direct result is tuple-typed but never destructured. -/
def scenarioC7Graph : SILGraph where
  insts := [(7, .apply [] [] [] [])]
  valueType := fun v => if v = .instResult 7 0 then .tupleType [] else .scalarType 0

/-- The apply of the undestructured-tuple scenario. -/
def scenarioC7Apply : ApplyInst := ⟨7, [], [], [], []⟩

/-- A call that passes the same value as both of its arguments. -/
def scenarioC8Graph : SILGraph where
  insts := [(8, .apply [] [⟨.owned⟩] [] [.funcArg 0, .funcArg 0])]
  valueType := fun _ => .scalarType 0

/-- The apply of the duplicated-argument scenario. -/
def scenarioC8Apply : ApplyInst := ⟨8, [], [⟨.owned⟩], [], [.funcArg 0, .funcArg 0]⟩

/-- A function returning a constructed tuple, with declared conventions
direct, indirect, direct. -/
def scenarioC10Graph : SILGraph where
  insts := [(0, .tupleInst [.funcArg 1, .funcArg 2])]
  valueType := fun _ => .scalarType 0

/-- The function of the formal-result collection scenario. -/
def scenarioC10Function : SILFunction :=
  ⟨scenarioC10Graph, [⟨.owned⟩, ⟨.indirect⟩, ⟨.owned⟩], [.funcArg 5], .instResult 0 0⟩

/-! Helper lemmas. -/

theorem foldl_snoc_eq_append {α : Type} (xs : List α) : ∀ ys : List α,
    xs.foldl (fun acc v => acc ++ [v]) ys = ys ++ xs := by
  induction xs with
  | nil => intro ys; simp
  | cons x xs ih => intro ys; simp [List.foldl_cons, ih]

theorem destructureTupleUserLoop_users_nil :
    ∀ (uses : List (Nat × InstKind)) (acc : Option DestructureTupleInst),
    uses.filterMap dynCastDestructureTupleInst = [] →
    destructureTupleUserLoop uses acc = .ok acc := by
  intro uses
  induction uses with
  | nil => intro acc _; rfl
  | cons u rest ih =>
    intro acc h
    cases hu : dynCastDestructureTupleInst u with
    | some d => simp [List.filterMap_cons, hu] at h
    | none =>
      have h2 : rest.filterMap dynCastDestructureTupleInst = [] := by
        simpa [List.filterMap_cons, hu] using h
      simp [destructureTupleUserLoop, hu, ih acc h2]

theorem destructureTupleUserLoop_conflict :
    ∀ (uses : List (Nat × InstKind)) (d : DestructureTupleInst),
    uses.filterMap dynCastDestructureTupleInst ≠ [] →
    destructureTupleUserLoop uses (some d) =
      .error "There should only be one destructure_tuple user of a tuple" := by
  intro uses
  induction uses with
  | nil => intro d h; simp at h
  | cons u rest ih =>
    intro d h
    cases hu : dynCastDestructureTupleInst u with
    | some d2 => simp [destructureTupleUserLoop, hu]
    | none =>
      have h2 : rest.filterMap dynCastDestructureTupleInst ≠ [] := by
        simpa [List.filterMap_cons, hu] using h
      simp [destructureTupleUserLoop, hu, ih d h2]

theorem destructureTupleUserLoop_single :
    ∀ (uses : List (Nat × InstKind)) (d : DestructureTupleInst),
    uses.filterMap dynCastDestructureTupleInst = [d] →
    destructureTupleUserLoop uses none = .ok (some d) := by
  intro uses
  induction uses with
  | nil => intro d h; simp at h
  | cons u rest ih =>
    intro d h
    cases hu : dynCastDestructureTupleInst u with
    | some d0 =>
      rw [List.filterMap_cons, hu] at h
      have hd : d0 = d := by simpa using List.head_eq_of_cons_eq h
      have h2 : rest.filterMap dynCastDestructureTupleInst = [] := by
        simpa using List.tail_eq_of_cons_eq h
      subst hd
      simp [destructureTupleUserLoop, hu,
        destructureTupleUserLoop_users_nil rest (some d0) h2]
    | none =>
      have h2 : rest.filterMap dynCastDestructureTupleInst = [d] := by
        simpa [List.filterMap_cons, hu] using h
      simp [destructureTupleUserLoop, hu, ih d h2]

theorem destructureTupleUserLoop_multi :
    ∀ (uses : List (Nat × InstKind)),
    2 ≤ (uses.filterMap dynCastDestructureTupleInst).length →
    destructureTupleUserLoop uses none =
      .error "There should only be one destructure_tuple user of a tuple" := by
  intro uses
  induction uses with
  | nil => intro h; simp at h
  | cons u rest ih =>
    intro h
    cases hu : dynCastDestructureTupleInst u with
    | some d =>
      rw [List.filterMap_cons, hu] at h
      have h2 : rest.filterMap dynCastDestructureTupleInst ≠ [] := by
        intro hnil
        rw [hnil] at h
        simp at h
      simp [destructureTupleUserLoop, hu, destructureTupleUserLoop_conflict rest d h2]
    | none =>
      rw [List.filterMap_cons, hu] at h
      simp [destructureTupleUserLoop, hu, ih h]

theorem getSingleDestructureTupleUser_not_tuple (g : SILGraph) (v : SILValue)
    (h : (g.valueType v).isTupleType = false) :
    getSingleDestructureTupleUser g v = .ok none := by
  simp [getSingleDestructureTupleUser, h]

theorem getSingleDestructureTupleUser_users_nil (g : SILGraph) (v : SILValue)
    (ht : (g.valueType v).isTupleType = true) (h : dtiUsers g v = []) :
    getSingleDestructureTupleUser g v = .ok none := by
  rw [dtiUsers] at h
  simp [getSingleDestructureTupleUser, ht,
    destructureTupleUserLoop_users_nil (g.uses v) none h]

theorem getSingleDestructureTupleUser_users_single (g : SILGraph) (v : SILValue)
    (d : DestructureTupleInst)
    (ht : (g.valueType v).isTupleType = true) (h : dtiUsers g v = [d]) :
    getSingleDestructureTupleUser g v = .ok (some d) := by
  rw [dtiUsers] at h
  simp [getSingleDestructureTupleUser, ht,
    destructureTupleUserLoop_single (g.uses v) d h]

theorem getSingleDestructureTupleUser_users_multi (g : SILGraph) (v : SILValue)
    (ht : (g.valueType v).isTupleType = true) (h : 2 ≤ (dtiUsers g v).length) :
    getSingleDestructureTupleUser g v =
      .error "There should only be one destructure_tuple user of a tuple" := by
  rw [dtiUsers] at h
  simp [getSingleDestructureTupleUser, ht, destructureTupleUserLoop_multi (g.uses v) h]

/-- C4: for every SSA value, getSingleDestructureTupleUser returns none
immediately for non-tuple-typed values regardless of their uses; for a
tuple-typed value it returns the unique destructure_tuple user when there
is exactly one, returns none when there is none, and fails the fatal
internal-consistency assertion when there is more than one. -/
theorem getSingleDestructureTupleUser_spec (g : SILGraph) (v : SILValue) :
    ((g.valueType v).isTupleType = false →
      getSingleDestructureTupleUser g v = .ok none)
    ∧ ((g.valueType v).isTupleType = true →
        (dtiUsers g v = [] → getSingleDestructureTupleUser g v = .ok none)
        ∧ (∀ d, dtiUsers g v = [d] →
            getSingleDestructureTupleUser g v = .ok (some d))
        ∧ (2 ≤ (dtiUsers g v).length →
            getSingleDestructureTupleUser g v =
              .error "There should only be one destructure_tuple user of a tuple")) :=
  ⟨fun h => getSingleDestructureTupleUser_not_tuple g v h,
   fun ht =>
     ⟨fun h => getSingleDestructureTupleUser_users_nil g v ht h,
      fun d h => getSingleDestructureTupleUser_users_single g v d ht h,
      fun h => getSingleDestructureTupleUser_users_multi g v ht h⟩⟩

/-- Witness for C4 at scenario A: the apply result is tuple-typed, has the
single destructure_tuple user, and the locator returns it. -/
theorem getSingleDestructureTupleUser_spec_witness :
    (scenarioAGraph.valueType scenarioAApply.value).isTupleType = true
    ∧ dtiUsers scenarioAGraph scenarioAApply.value = [scenarioADti]
    ∧ getSingleDestructureTupleUser scenarioAGraph scenarioAApply.value =
        .ok (some scenarioADti) :=
  ⟨rfl, rfl,
    ((getSingleDestructureTupleUser_spec scenarioAGraph scenarioAApply.value).2
      rfl).2.1 scenarioADti rfl⟩

theorem forEachApplyDirectResult_eq_foldl {σ : Type} (g : SILGraph) (ai : ApplyInst)
    (l : List SILValue) (h : applyDirectResults g ai = .ok l)
    (cb : SILValue → σ → σ) (s : σ) :
    forEachApplyDirectResult g ai cb s = .ok (l.foldl (fun acc v => cb v acc) s) := by
  rw [applyDirectResults] at h
  unfold forEachApplyDirectResult at h ⊢
  cases htype : (g.valueType ai.value).isTupleType with
  | false =>
    simp only [htype, reduceIte] at h ⊢
    have hl : l = [ai.value] := by simpa using h.symm
    subst hl
    simp
  | true =>
    simp only [htype, Bool.true_eq_false, reduceIte] at h ⊢
    cases hg : getSingleDestructureTupleUser g ai.value with
    | error e => rw [hg] at h; exact absurd h (by simp)
    | ok o =>
      rw [hg] at h
      cases o with
      | none =>
        have hl : l = [] := by simpa using h.symm
        subst hl
        simp
      | some dti =>
        have hl : l = dti.getResults := by
          simpa [foldl_snoc_eq_append] using h.symm
        subst hl
        simp

theorem applyDirectResults_not_tuple (g : SILGraph) (ai : ApplyInst)
    (h : (g.valueType ai.value).isTupleType = false) :
    applyDirectResults g ai = .ok [ai.value] := by
  simp [applyDirectResults, forEachApplyDirectResult, h]

theorem applyDirectResults_of_single (g : SILGraph) (ai : ApplyInst)
    (d : DestructureTupleInst)
    (h : getSingleDestructureTupleUser g ai.value = .ok (some d)) :
    applyDirectResults g ai = .ok d.getResults := by
  cases htype : (g.valueType ai.value).isTupleType with
  | false =>
    rw [getSingleDestructureTupleUser_not_tuple g ai.value htype] at h
    exact absurd h (by simp)
  | true =>
    simp [applyDirectResults, forEachApplyDirectResult, htype, h,
      foldl_snoc_eq_append]

/-- C7: for a call whose direct result type is a tuple with no
destructure_tuple consumer, the direct contribution is empty and
forEachApplyDirectResult treats this as a legitimate outcome: the callback
is never invoked, leaving any callback state unchanged. -/
theorem forEachApplyDirectResult_noDestructureUser (g : SILGraph) (ai : ApplyInst)
    (htuple : (g.valueType ai.value).isTupleType = true)
    (husers : dtiUsers g ai.value = []) :
    (∀ (σ : Type) (cb : SILValue → σ → σ) (s : σ),
        forEachApplyDirectResult g ai cb s = .ok s)
    ∧ applyDirectResults g ai = .ok [] := by
  have hsingle : getSingleDestructureTupleUser g ai.value = .ok none :=
    getSingleDestructureTupleUser_users_nil g ai.value htuple husers
  constructor
  · intro σ cb s
    simp [forEachApplyDirectResult, htuple, hsingle]
  · simp [applyDirectResults, forEachApplyDirectResult, htuple, hsingle]

/-- Witness for C7: a call with tuple-typed direct result and no
destructure_tuple user yields an empty direct contribution. -/
theorem forEachApplyDirectResult_noDestructureUser_witness :
    (scenarioC7Graph.valueType scenarioC7Apply.value).isTupleType = true
    ∧ dtiUsers scenarioC7Graph scenarioC7Apply.value = []
    ∧ applyDirectResults scenarioC7Graph scenarioC7Apply = .ok [] :=
  ⟨rfl, rfl,
    (forEachApplyDirectResult_noDestructureUser scenarioC7Graph scenarioC7Apply
      rfl rfl).2⟩

/-- C9: re-invoking the direct-result enumeration on the same call over
the same graph emits an element-wise identical sequence: running it a
second time on top of the first run appends exactly the first list again. -/
theorem forEachApplyDirectResult_reinvocation (g : SILGraph) (ai : ApplyInst)
    (l : List SILValue) (h : applyDirectResults g ai = .ok l) :
    forEachApplyDirectResult g ai (fun v acc => acc ++ [v]) l = .ok (l ++ l)
    ∧ (l ++ l).drop l.length = l := by
  refine ⟨?_, List.drop_left l l⟩
  rw [forEachApplyDirectResult_eq_foldl g ai l h (fun v acc => acc ++ [v]) l]
  rw [foldl_snoc_eq_append]

/-- Witness for C9 at scenario A: the second enumeration pass appends the
same two destructure results again. -/
theorem forEachApplyDirectResult_reinvocation_witness :
    applyDirectResults scenarioAGraph scenarioAApply =
      .ok [.instResult 1 0, .instResult 1 1]
    ∧ forEachApplyDirectResult scenarioAGraph scenarioAApply
        (fun v acc => acc ++ [v]) [.instResult 1 0, .instResult 1 1] =
        .ok [.instResult 1 0, .instResult 1 1, .instResult 1 0, .instResult 1 1] :=
  ⟨rfl,
    (forEachApplyDirectResult_reinvocation scenarioAGraph scenarioAApply
      [.instResult 1 0, .instResult 1 1] rfl).1⟩

theorem paramIndicesLoop_cons_true (act : SILValue → Bool) (a : SILValue)
    (as : List SILValue) (n : Nat) (h : act a = true) :
    paramIndicesLoop act (a :: as) n = n :: paramIndicesLoop act as (n + 1) := by
  simp [paramIndicesLoop, h]

theorem paramIndicesLoop_cons_false (act : SILValue → Bool) (a : SILValue)
    (as : List SILValue) (n : Nat) (h : act a = false) :
    paramIndicesLoop act (a :: as) n = paramIndicesLoop act as (n + 1) := by
  simp [paramIndicesLoop, h]

theorem paramIndicesLoop_mem (act : SILValue → Bool) :
    ∀ (args : List SILValue) (n i : Nat),
    i ∈ paramIndicesLoop act args n ↔
      ∃ k v, args[k]? = some v ∧ act v = true ∧ i = n + k := by
  intro args
  induction args with
  | nil => intro n i; simp [paramIndicesLoop]
  | cons a as ih =>
    intro n i
    cases hact : act a with
    | true =>
      rw [paramIndicesLoop_cons_true act a as n hact, List.mem_cons, ih]
      constructor
      · rintro (rfl | ⟨k, v, hk, hv, rfl⟩)
        · exact ⟨0, a, by simp, hact, by omega⟩
        · exact ⟨k + 1, v, by simpa using hk, hv, by omega⟩
      · rintro ⟨k, v, hk, hv, rfl⟩
        cases k with
        | zero => left; omega
        | succ k => right; exact ⟨k, v, by simpa using hk, hv, by omega⟩
    | false =>
      rw [paramIndicesLoop_cons_false act a as n hact, ih]
      constructor
      · rintro ⟨k, v, hk, hv, rfl⟩
        exact ⟨k + 1, v, by simpa using hk, hv, by omega⟩
      · rintro ⟨k, v, hk, hv, rfl⟩
        cases k with
        | zero =>
          exfalso
          have ha : a = v := by simpa using hk
          subst ha
          rw [hact] at hv
          exact Bool.false_ne_true hv
        | succ k => exact ⟨k, v, by simpa using hk, hv, by omega⟩

theorem paramIndicesLoop_lower (act : SILValue → Bool)
    (args : List SILValue) (n i : Nat)
    (h : i ∈ paramIndicesLoop act args n) : n ≤ i := by
  obtain ⟨k, v, _, _, rfl⟩ := (paramIndicesLoop_mem act args n i).1 h
  omega

theorem paramIndicesLoop_pairwise (act : SILValue → Bool) :
    ∀ (args : List SILValue) (n : Nat),
    (paramIndicesLoop act args n).Pairwise (fun a b => a < b) := by
  intro args
  induction args with
  | nil => intro n; simp [paramIndicesLoop]
  | cons a as ih =>
    intro n
    cases hact : act a with
    | true =>
      rw [paramIndicesLoop_cons_true act a as n hact]
      refine List.Pairwise.cons ?_ (ih (n + 1))
      intro b hb
      have := paramIndicesLoop_lower act as (n + 1) b hb
      omega
    | false =>
      rw [paramIndicesLoop_cons_false act a as n hact]
      exact ih (n + 1)

theorem collectLoop_direct_nil (act : SILValue → Bool) (r : SILResultInfo)
    (rs : List SILResultInfo) (idx : Nat) (ind : List SILValue)
    (h : r.isFormalDirect = true) :
    collectLoop act (r :: rs) idx [] ind =
      .error "SmallVector index out of bounds" := by
  simp [collectLoop, h]

theorem collectLoop_direct_cons (act : SILValue → Bool) (r : SILResultInfo)
    (rs : List SILResultInfo) (idx : Nat) (d : SILValue)
    (dirRest ind : List SILValue) (h : r.isFormalDirect = true) :
    collectLoop act (r :: rs) idx (d :: dirRest) ind =
      match collectLoop act rs (idx + 1) dirRest ind with
      | .ok (res, resIdxs) =>
        .ok (d :: res, if act d then idx :: resIdxs else resIdxs)
      | .error e => .error e := by
  simp [collectLoop, h]

theorem collectLoop_indirect_nil (act : SILValue → Bool) (r : SILResultInfo)
    (rs : List SILResultInfo) (idx : Nat) (dir : List SILValue)
    (h : r.isFormalDirect = false) :
    collectLoop act (r :: rs) idx dir [] =
      .error "SmallVector index out of bounds" := by
  simp [collectLoop, h]

theorem collectLoop_indirect_cons (act : SILValue → Bool) (r : SILResultInfo)
    (rs : List SILResultInfo) (idx : Nat) (i : SILValue)
    (dir indRest : List SILValue) (h : r.isFormalDirect = false) :
    collectLoop act (r :: rs) idx dir (i :: indRest) =
      match collectLoop act rs (idx + 1) dir indRest with
      | .ok (res, resIdxs) =>
        .ok (i :: res, if act i then idx :: resIdxs else resIdxs)
      | .error e => .error e := by
  simp [collectLoop, h]

theorem collectLoop_ok_counts (act : SILValue → Bool) :
    ∀ (convs : List SILResultInfo) (idx : Nat) (dir ind res : List SILValue)
      (ris : List Nat),
    collectLoop act convs idx dir ind = .ok (res, ris) →
    res.length = convs.length
    ∧ convs.countP (fun r => r.isFormalDirect) ≤ dir.length
    ∧ convs.countP (fun r => !r.isFormalDirect) ≤ ind.length := by
  intro convs
  induction convs with
  | nil =>
    intro idx dir ind res ris h
    simp only [collectLoop, Except.ok.injEq, Prod.mk.injEq] at h
    obtain ⟨hres, -⟩ := h
    subst hres
    simp
  | cons r rs ih =>
    intro idx dir ind res ris h
    cases hr : r.isFormalDirect with
    | true =>
      cases dir with
      | nil =>
        rw [collectLoop_direct_nil act r rs idx ind hr] at h
        exact absurd h (by simp)
      | cons d dirRest =>
        rw [collectLoop_direct_cons act r rs idx d dirRest ind hr] at h
        cases hrec : collectLoop act rs (idx + 1) dirRest ind with
        | error e => rw [hrec] at h; exact absurd h (by simp)
        | ok p =>
          obtain ⟨res0, ris0⟩ := p
          rw [hrec] at h
          simp only [Except.ok.injEq, Prod.mk.injEq] at h
          obtain ⟨hres, -⟩ := h
          obtain ⟨hlen, hdir, hind⟩ := ih (idx + 1) dirRest ind res0 ris0 hrec
          subst hres
          refine ⟨by simp [hlen], ?_, ?_⟩
          · simp only [List.countP_cons, List.length_cons, hr]
            simp
            omega
          · simp only [List.countP_cons, hr]
            simpa using hind
    | false =>
      cases ind with
      | nil =>
        rw [collectLoop_indirect_nil act r rs idx dir hr] at h
        exact absurd h (by simp)
      | cons i indRest =>
        rw [collectLoop_indirect_cons act r rs idx i dir indRest hr] at h
        cases hrec : collectLoop act rs (idx + 1) dir indRest with
        | error e => rw [hrec] at h; exact absurd h (by simp)
        | ok p =>
          obtain ⟨res0, ris0⟩ := p
          rw [hrec] at h
          simp only [Except.ok.injEq, Prod.mk.injEq] at h
          obtain ⟨hres, -⟩ := h
          obtain ⟨hlen, hdir, hind⟩ := ih (idx + 1) dir indRest res0 ris0 hrec
          subst hres
          refine ⟨by simp [hlen], ?_, ?_⟩
          · simp only [List.countP_cons, hr]
            simpa using hdir
          · simp only [List.countP_cons, List.length_cons, hr]
            simp
            omega

theorem collectLoop_ok_getEq (act : SILValue → Bool) :
    ∀ (convs : List SILResultInfo) (idx : Nat) (dir ind res : List SILValue)
      (ris : List Nat),
    collectLoop act convs idx dir ind = .ok (res, ris) →
    ∀ (k : Nat) (r : SILResultInfo), convs[k]? = some r →
      res[k]? =
        if r.isFormalDirect
        then dir[(convs.take k).countP (fun s => s.isFormalDirect)]?
        else ind[(convs.take k).countP (fun s => !s.isFormalDirect)]? := by
  intro convs
  induction convs with
  | nil => intro idx dir ind res ris h k r hk; simp at hk
  | cons r0 rs ih =>
    intro idx dir ind res ris h k r hk
    cases hr0 : r0.isFormalDirect with
    | true =>
      cases dir with
      | nil =>
        rw [collectLoop_direct_nil act r0 rs idx ind hr0] at h
        exact absurd h (by simp)
      | cons d dirRest =>
        rw [collectLoop_direct_cons act r0 rs idx d dirRest ind hr0] at h
        cases hrec : collectLoop act rs (idx + 1) dirRest ind with
        | error e => rw [hrec] at h; exact absurd h (by simp)
        | ok p =>
          obtain ⟨res0, ris0⟩ := p
          rw [hrec] at h
          simp only [Except.ok.injEq, Prod.mk.injEq] at h
          obtain ⟨hres, -⟩ := h
          subst hres
          cases k with
          | zero =>
            have hrr : r0 = r := by simpa using hk
            subst hrr
            simp [hr0]
          | succ k =>
            have hk2 : rs[k]? = some r := by simpa using hk
            have hstep := ih (idx + 1) dirRest ind res0 ris0 hrec k r hk2
            rw [List.getElem?_cons_succ, hstep, List.take_succ_cons,
              List.countP_cons, List.countP_cons]
            simp [hr0]
    | false =>
      cases ind with
      | nil =>
        rw [collectLoop_indirect_nil act r0 rs idx dir hr0] at h
        exact absurd h (by simp)
      | cons i indRest =>
        rw [collectLoop_indirect_cons act r0 rs idx i dir indRest hr0] at h
        cases hrec : collectLoop act rs (idx + 1) dir indRest with
        | error e => rw [hrec] at h; exact absurd h (by simp)
        | ok p =>
          obtain ⟨res0, ris0⟩ := p
          rw [hrec] at h
          simp only [Except.ok.injEq, Prod.mk.injEq] at h
          obtain ⟨hres, -⟩ := h
          subst hres
          cases k with
          | zero =>
            have hrr : r0 = r := by simpa using hk
            subst hrr
            simp [hr0]
          | succ k =>
            have hk2 : rs[k]? = some r := by simpa using hk
            have hstep := ih (idx + 1) dir indRest res0 ris0 hrec k r hk2
            rw [List.getElem?_cons_succ, hstep, List.take_succ_cons,
              List.countP_cons, List.countP_cons]
            simp [hr0]

theorem mergeFormalResults_direct_nil (r : SILResultInfo)
    (rs : List SILResultInfo) (ind : List SILValue)
    (h : r.isFormalDirect = true) :
    mergeFormalResults (r :: rs) [] ind =
      .error "SmallVector index out of bounds" := by
  simp [mergeFormalResults, h]

theorem mergeFormalResults_direct_cons (r : SILResultInfo)
    (rs : List SILResultInfo) (d : SILValue) (dirRest ind : List SILValue)
    (h : r.isFormalDirect = true) :
    mergeFormalResults (r :: rs) (d :: dirRest) ind =
      match mergeFormalResults rs dirRest ind with
      | .ok res => .ok (d :: res)
      | .error e => .error e := by
  simp [mergeFormalResults, h]

theorem mergeFormalResults_indirect_nil (r : SILResultInfo)
    (rs : List SILResultInfo) (dir : List SILValue)
    (h : r.isFormalDirect = false) :
    mergeFormalResults (r :: rs) dir [] =
      .error "SmallVector index out of bounds" := by
  simp [mergeFormalResults, h]

theorem mergeFormalResults_indirect_cons (r : SILResultInfo)
    (rs : List SILResultInfo) (i : SILValue) (dir indRest : List SILValue)
    (h : r.isFormalDirect = false) :
    mergeFormalResults (r :: rs) dir (i :: indRest) =
      match mergeFormalResults rs dir indRest with
      | .ok res => .ok (i :: res)
      | .error e => .error e := by
  simp [mergeFormalResults, h]

theorem mergeFormalResults_eq_collectLoop (act : SILValue → Bool) :
    ∀ (convs : List SILResultInfo) (idx : Nat) (dir ind : List SILValue),
    mergeFormalResults convs dir ind =
      (collectLoop act convs idx dir ind).map Prod.fst := by
  intro convs
  induction convs with
  | nil => intro idx dir ind; rfl
  | cons r rs ih =>
    intro idx dir ind
    cases hr : r.isFormalDirect with
    | true =>
      cases dir with
      | nil =>
        rw [collectLoop_direct_nil act r rs idx ind hr,
          mergeFormalResults_direct_nil r rs ind hr]
        rfl
      | cons d dirRest =>
        rw [collectLoop_direct_cons act r rs idx d dirRest ind hr,
          mergeFormalResults_direct_cons r rs d dirRest ind hr,
          ih (idx + 1) dirRest ind]
        cases collectLoop act rs (idx + 1) dirRest ind with
        | error e => rfl
        | ok p => obtain ⟨res0, ris0⟩ := p; rfl
    | false =>
      cases ind with
      | nil =>
        rw [collectLoop_indirect_nil act r rs idx dir hr,
          mergeFormalResults_indirect_nil r rs dir hr]
        rfl
      | cons i indRest =>
        rw [collectLoop_indirect_cons act r rs idx i dir indRest hr,
          mergeFormalResults_indirect_cons r rs i dir indRest hr,
          ih (idx + 1) dir indRest]
        cases collectLoop act rs (idx + 1) dir indRest with
        | error e => rfl
        | ok p => obtain ⟨res0, ris0⟩ := p; rfl

theorem anyOfQueries_count_le (act : SILValue → Bool) :
    ∀ (l : List SILValue) (v : SILValue),
    (anyOfQueries act l).count v ≤ l.count v := by
  intro l
  induction l with
  | nil => intro v; simp [anyOfQueries]
  | cons x xs ih =>
    intro v
    cases hx : act x with
    | true =>
      simp only [anyOfQueries, hx, if_true, List.count_cons, List.count_nil]
      omega
    | false =>
      simp [anyOfQueries, hx, List.count_cons]
      have := ih v
      omega

theorem collect_ok_toWQ (g : SILGraph) (ai : ApplyInst)
    (parentIndices : SILAutoDiffIndices)
    (activityInfo : DifferentiableActivityInfo) (out : CollectOutput)
    (h : collectMinimalIndicesForFunctionCall g ai parentIndices activityInfo =
      .ok out) :
    ∃ t, collectMinimalIndicesWithQueries g ai parentIndices activityInfo =
      .ok (out, t) := by
  rw [collectMinimalIndicesForFunctionCall] at h
  cases hwq : collectMinimalIndicesWithQueries g ai parentIndices activityInfo with
  | error e => rw [hwq] at h; exact absurd h (by simp [Except.map])
  | ok p =>
    obtain ⟨o, t⟩ := p
    rw [hwq] at h
    simp only [Except.map, Except.ok.injEq] at h
    subst h
    exact ⟨t, rfl⟩

theorem collectWQ_ok_elim (g : SILGraph) (ai : ApplyInst)
    (parentIndices : SILAutoDiffIndices)
    (activityInfo : DifferentiableActivityInfo) (out : CollectOutput)
    (t : List SILValue)
    (h : collectMinimalIndicesWithQueries g ai parentIndices activityInfo =
      .ok (out, t)) :
    ∃ dir ris,
      applyDirectResults g ai = .ok dir
      ∧ collectLoop (fun v => activityInfo.isActive v parentIndices)
          ai.calleeResults 0 dir ai.indirectSILResults = .ok (out.results, ris)
      ∧ out.paramIndices =
          paramIndicesLoop (fun v => activityInfo.isActive v parentIndices)
            ai.argumentsWithoutIndirectResults 0
      ∧ out.resultIndices = ris
      ∧ out.results.any (fun v => activityInfo.isActive v parentIndices) = true
      ∧ t = ai.argumentsWithoutIndirectResults ++ out.results ++
          anyOfQueries (fun v => activityInfo.isActive v parentIndices)
            out.results := by
  simp only [collectMinimalIndicesWithQueries, getSILArgIndexOfFirstIndirectResult,
    List.drop_zero] at h
  split at h
  next e heq => exact absurd h (by simp)
  next dir hdir =>
    split at h
    next e heq => exact absurd h (by simp)
    next res ris hloop =>
      split at h
      next hlen =>
        split at h
        next hany =>
          simp only [Except.ok.injEq, Prod.mk.injEq] at h
          obtain ⟨hout, ht⟩ := h
          subst hout
          subst ht
          exact ⟨dir, ris, hdir, hloop, rfl, rfl, hany, rfl⟩
        next hany => exact absurd h (by simp)
      next hlen => exact absurd h (by simp)

theorem collectWQ_error_of_inactive (g : SILGraph) (ai : ApplyInst)
    (parentIndices : SILAutoDiffIndices)
    (activityInfo : DifferentiableActivityInfo)
    (dir res : List SILValue) (ris : List Nat)
    (hdir : applyDirectResults g ai = .ok dir)
    (hloop : collectLoop (fun v => activityInfo.isActive v parentIndices)
        ai.calleeResults 0 dir ai.indirectSILResults = .ok (res, ris))
    (hinactive : res.any (fun v => activityInfo.isActive v parentIndices) = false) :
    collectMinimalIndicesWithQueries g ai parentIndices activityInfo =
      .error "Make sure the function call has active results" := by
  have hlen : res.length = ai.calleeResults.length :=
    (collectLoop_ok_counts (fun v => activityInfo.isActive v parentIndices)
      ai.calleeResults 0 dir ai.indirectSILResults res ris hloop).1
  simp only [collectMinimalIndicesWithQueries, getSILArgIndexOfFirstIndirectResult,
    List.drop_zero, hdir, hloop]
  rw [if_pos hlen, hinactive]
  simp

/-- C1: for every call, the merged result list returned by
collectMinimalIndicesForFunctionCall has length equal to the callee
declared result count; each formally direct position holds the next
direct-contribution value in order (the destructure_tuple outputs when the
direct result type is a tuple, else the bare direct result), and each
formally indirect position holds the next indirect-result argument in
order. -/
theorem collectMinimalIndices_results_spec (g : SILGraph) (ai : ApplyInst)
    (parentIndices : SILAutoDiffIndices)
    (activityInfo : DifferentiableActivityInfo)
    (dir : List SILValue) (out : CollectOutput)
    (hdir : applyDirectResults g ai = .ok dir)
    (h : collectMinimalIndicesForFunctionCall g ai parentIndices activityInfo =
      .ok out) :
    out.results.length = ai.calleeResults.length
    ∧ (∀ (k : Nat) (r : SILResultInfo), ai.calleeResults[k]? = some r →
        out.results[k]? =
          if r.isFormalDirect
          then dir[(ai.calleeResults.take k).countP (fun s => s.isFormalDirect)]?
          else ai.indirectSILResults[(ai.calleeResults.take k).countP
            (fun s => !s.isFormalDirect)]?)
    ∧ ((g.valueType ai.value).isTupleType = false → dir = [ai.value])
    ∧ (∀ d : DestructureTupleInst,
        getSingleDestructureTupleUser g ai.value = .ok (some d) →
          dir = d.getResults) := by
  obtain ⟨t, hwq⟩ := collect_ok_toWQ g ai parentIndices activityInfo out h
  obtain ⟨dir0, ris, hdir0, hloop, -, -, -, -⟩ :=
    collectWQ_ok_elim g ai parentIndices activityInfo out t hwq
  have hd : dir0 = dir := by
    have := hdir0.symm.trans hdir
    simpa using this
  subst hd
  refine ⟨(collectLoop_ok_counts (fun v => activityInfo.isActive v parentIndices)
      ai.calleeResults 0 dir0 ai.indirectSILResults out.results ris hloop).1,
    ?_, ?_, ?_⟩
  · intro k r hk
    exact collectLoop_ok_getEq (fun v => activityInfo.isActive v parentIndices)
      ai.calleeResults 0 dir0 ai.indirectSILResults out.results ris hloop k r hk
  · intro htype
    have := hdir0.symm.trans (applyDirectResults_not_tuple g ai htype)
    simpa using this
  · intro d hdti
    have := hdir0.symm.trans (applyDirectResults_of_single g ai d hdti)
    simpa using this

/-- Witness for C1 at scenario B: one direct and one indirect result,
merged in declared order with the declared length. -/
theorem collectMinimalIndices_results_spec_witness :
    applyDirectResults scenarioBGraph scenarioBApply = .ok [.instResult 3 0]
    ∧ collectMinimalIndicesForFunctionCall scenarioBGraph scenarioBApply
        parentIndices0 activityB = .ok scenarioBOutput
    ∧ scenarioBOutput.results.length = scenarioBApply.calleeResults.length :=
  ⟨rfl, rfl,
    (collectMinimalIndices_results_spec scenarioBGraph scenarioBApply
      parentIndices0 activityB [.instResult 3 0] scenarioBOutput rfl rfl).1⟩

/-- C2: a call whose merged result list has no active value makes
collectMinimalIndicesForFunctionCall fail the no-active-results assertion
instead of returning an empty result-index set. -/
theorem collectMinimalIndices_noActiveResults_fatal (g : SILGraph)
    (ai : ApplyInst) (parentIndices : SILAutoDiffIndices)
    (activityInfo : DifferentiableActivityInfo)
    (dir res : List SILValue) (ris : List Nat)
    (hdir : applyDirectResults g ai = .ok dir)
    (hloop : collectLoop (fun v => activityInfo.isActive v parentIndices)
        ai.calleeResults 0 dir ai.indirectSILResults = .ok (res, ris))
    (hinactive : res.any (fun v => activityInfo.isActive v parentIndices) = false) :
    collectMinimalIndicesForFunctionCall g ai parentIndices activityInfo =
      .error "Make sure the function call has active results" := by
  rw [collectMinimalIndicesForFunctionCall,
    collectWQ_error_of_inactive g ai parentIndices activityInfo dir res ris
      hdir hloop hinactive]
  rfl

/-- Witness for C2: a one-result call with an all-inactive oracle reaches
the fatal no-active-results assertion. -/
theorem collectMinimalIndices_noActiveResults_fatal_witness :
    applyDirectResults scenarioC2Graph scenarioC2Apply = .ok [.instResult 2 0]
    ∧ collectLoop (fun v => inactiveOracle.isActive v parentIndices0)
        scenarioC2Apply.calleeResults 0 [.instResult 2 0]
        scenarioC2Apply.indirectSILResults = .ok ([.instResult 2 0], [])
    ∧ ([SILValue.instResult 2 0].any
        (fun v => inactiveOracle.isActive v parentIndices0)) = false
    ∧ collectMinimalIndicesForFunctionCall scenarioC2Graph scenarioC2Apply
        parentIndices0 inactiveOracle =
        .error "Make sure the function call has active results" :=
  ⟨rfl, rfl, rfl,
    collectMinimalIndices_noActiveResults_fatal scenarioC2Graph scenarioC2Apply
      parentIndices0 inactiveOracle [.instResult 2 0] [.instResult 2 0] []
      rfl rfl rfl⟩

/-- C3: the parameter-index set contains exactly the positions, in the
order of the arguments without indirect results, whose argument the oracle
reports active, in strictly increasing order without duplicates. -/
theorem collectMinimalIndices_paramIndices_spec (g : SILGraph) (ai : ApplyInst)
    (parentIndices : SILAutoDiffIndices)
    (activityInfo : DifferentiableActivityInfo) (out : CollectOutput)
    (h : collectMinimalIndicesForFunctionCall g ai parentIndices activityInfo =
      .ok out) :
    (∀ i : Nat, i ∈ out.paramIndices ↔
      ∃ v, ai.argumentsWithoutIndirectResults[i]? = some v
        ∧ activityInfo.isActive v parentIndices = true)
    ∧ out.paramIndices.Pairwise (fun a b => a < b) := by
  obtain ⟨t, hwq⟩ := collect_ok_toWQ g ai parentIndices activityInfo out h
  obtain ⟨dir, ris, -, -, hparam, -, -, -⟩ :=
    collectWQ_ok_elim g ai parentIndices activityInfo out t hwq
  constructor
  · intro i
    rw [hparam, paramIndicesLoop_mem]
    constructor
    · rintro ⟨k, v, hk, hv, rfl⟩
      refine ⟨v, ?_, hv⟩
      rw [Nat.zero_add]
      exact hk
    · rintro ⟨v, hk, hv⟩
      exact ⟨i, v, hk, hv, by omega⟩
  · rw [hparam]
    exact paramIndicesLoop_pairwise
      (fun v => activityInfo.isActive v parentIndices)
      ai.argumentsWithoutIndirectResults 0

/-- Witness for C3 at scenario A: parameter-index set is the single
position 0 and is strictly increasing. -/
theorem collectMinimalIndices_paramIndices_spec_witness :
    collectMinimalIndicesForFunctionCall scenarioAGraph scenarioAApply
      parentIndices0 activityA = .ok scenarioAOutput
    ∧ scenarioAOutput.paramIndices.Pairwise (fun a b => a < b) :=
  ⟨rfl,
    (collectMinimalIndices_paramIndices_spec scenarioAGraph scenarioAApply
      parentIndices0 activityA scenarioAOutput rfl).2⟩

/-- C6: when the result loop reaches a formally direct position after the
direct-contribution list is exhausted, the collector fails fatally rather
than recovering or producing a partial result. -/
theorem collectMinimalIndices_directExhausted_fatal (g : SILGraph)
    (ai : ApplyInst) (parentIndices : SILAutoDiffIndices)
    (activityInfo : DifferentiableActivityInfo) (dir : List SILValue)
    (hdir : applyDirectResults g ai = .ok dir)
    (hlt : dir.length < ai.calleeResults.countP (fun r => r.isFormalDirect)) :
    ∃ msg, collectMinimalIndicesForFunctionCall g ai parentIndices activityInfo =
      .error msg := by
  cases hloop : collectLoop (fun v => activityInfo.isActive v parentIndices)
      ai.calleeResults 0 dir ai.indirectSILResults with
  | ok p =>
    obtain ⟨res, ris⟩ := p
    have hle := (collectLoop_ok_counts
      (fun v => activityInfo.isActive v parentIndices)
      ai.calleeResults 0 dir ai.indirectSILResults res ris hloop).2.1
    exact absurd hlt (by omega)
  | error e =>
    refine ⟨e, ?_⟩
    rw [collectMinimalIndicesForFunctionCall]
    simp only [collectMinimalIndicesWithQueries, getSILArgIndexOfFirstIndirectResult,
      List.drop_zero, hdir, hloop]
    rfl

/-- Witness for C6: two declared direct results against a single-element
direct contribution abort with the out-of-bounds assertion. -/
theorem collectMinimalIndices_directExhausted_fatal_witness :
    applyDirectResults scenarioC6Graph scenarioC6Apply = .ok [.instResult 6 0]
    ∧ ([SILValue.instResult 6 0].length <
        scenarioC6Apply.calleeResults.countP (fun r => r.isFormalDirect))
    ∧ ∃ msg, collectMinimalIndicesForFunctionCall scenarioC6Graph scenarioC6Apply
        parentIndices0 allActiveOracle = .error msg :=
  ⟨rfl, by decide,
    collectMinimalIndices_directExhausted_fatal scenarioC6Graph scenarioC6Apply
      parentIndices0 allActiveOracle [.instResult 6 0] rfl (by decide)⟩

/-- C8 counterexample: the oracle is not queried at most once per distinct
value.  A value passed as two arguments is queried once per occurrence,
and the final assertion re-queries the merged result, so the trace of this
run contains funcArg 0 twice (and the merged result twice as well). -/
theorem collectMinimalIndices_singleQuery_counterexample :
    SILValue.funcArg 0 ∈ scenarioC8Apply.argumentsWithoutIndirectResults
    ∧ collectMinimalIndicesQueryTrace scenarioC8Graph scenarioC8Apply
        parentIndices0 allActiveOracle =
        .ok [.funcArg 0, .funcArg 0, .instResult 8 0, .instResult 8 0]
    ∧ 2 ≤ List.count (SILValue.funcArg 0)
        [SILValue.funcArg 0, SILValue.funcArg 0, SILValue.instResult 8 0,
          SILValue.instResult 8 0]
    ∧ 2 ≤ List.count (SILValue.instResult 8 0)
        [SILValue.funcArg 0, SILValue.funcArg 0, SILValue.instResult 8 0,
          SILValue.instResult 8 0] :=
  ⟨by decide, rfl, by decide, by decide⟩

/-- C8 (amended): during one successful invocation the oracle is queried
once per argument occurrence, once per merged-result occurrence, and once
more per merged result scanned by the final assertion (up to the first
active one); hence each value is queried once per position it occupies,
not at most once per distinct value. -/
theorem collectMinimalIndices_queryTrace_spec (g : SILGraph) (ai : ApplyInst)
    (parentIndices : SILAutoDiffIndices)
    (activityInfo : DifferentiableActivityInfo) (out : CollectOutput)
    (h : collectMinimalIndicesForFunctionCall g ai parentIndices activityInfo =
      .ok out) :
    collectMinimalIndicesQueryTrace g ai parentIndices activityInfo =
      .ok (ai.argumentsWithoutIndirectResults ++ out.results ++
        anyOfQueries (fun v => activityInfo.isActive v parentIndices) out.results)
    ∧ (∀ v, List.count v (ai.argumentsWithoutIndirectResults ++ out.results ++
          anyOfQueries (fun v2 => activityInfo.isActive v2 parentIndices)
            out.results) =
        List.count v ai.argumentsWithoutIndirectResults
          + List.count v out.results
          + List.count v (anyOfQueries
              (fun v2 => activityInfo.isActive v2 parentIndices) out.results))
    ∧ (∀ v, List.count v (anyOfQueries
          (fun v2 => activityInfo.isActive v2 parentIndices) out.results)
        ≤ List.count v out.results) := by
  obtain ⟨t, hwq⟩ := collect_ok_toWQ g ai parentIndices activityInfo out h
  obtain ⟨dir, ris, -, -, -, -, -, ht⟩ :=
    collectWQ_ok_elim g ai parentIndices activityInfo out t hwq
  refine ⟨?_, ?_, fun v => anyOfQueries_count_le
    (fun v2 => activityInfo.isActive v2 parentIndices) out.results v⟩
  · rw [collectMinimalIndicesQueryTrace, hwq]
    simp only [Except.map]
    rw [ht]
  · intro v
    rw [List.count_append, List.count_append]

/-- Witness for C8 (amended) at the duplicated-argument scenario. -/
theorem collectMinimalIndices_queryTrace_spec_witness :
    collectMinimalIndicesForFunctionCall scenarioC8Graph scenarioC8Apply
      parentIndices0 allActiveOracle = .ok ⟨[.instResult 8 0], [0, 1], [0]⟩
    ∧ collectMinimalIndicesQueryTrace scenarioC8Graph scenarioC8Apply
        parentIndices0 allActiveOracle =
        .ok (scenarioC8Apply.argumentsWithoutIndirectResults ++
          [SILValue.instResult 8 0] ++
          anyOfQueries (fun v => allActiveOracle.isActive v parentIndices0)
            [SILValue.instResult 8 0]) :=
  ⟨rfl,
    (collectMinimalIndices_queryTrace_spec scenarioC8Graph scenarioC8Apply
      parentIndices0 allActiveOracle ⟨[.instResult 8 0], [0, 1], [0]⟩ rfl).1⟩

/-- C10: collectAllFormalResultsInTypeOrder walks the declared result
list, emitting at each formally direct position the next element of the
tuple construction feeding the return (or the bare returned value), and at
each formally indirect position the next indirect-result argument. -/
theorem collectAllFormalResultsInTypeOrder_spec (f : SILFunction)
    (res : List SILValue)
    (h : collectAllFormalResultsInTypeOrder f = .ok res) :
    res.length = f.resultConvs.length
    ∧ (∀ (k : Nat) (r : SILResultInfo), f.resultConvs[k]? = some r →
        res[k]? =
          if r.isFormalDirect
          then (functionDirectResults f)[(f.resultConvs.take k).countP
            (fun s => s.isFormalDirect)]?
          else f.indirectResults[(f.resultConvs.take k).countP
            (fun s => !s.isFormalDirect)]?)
    ∧ (∀ (ti : Nat) (elems : List SILValue),
        f.returnOperand.getDefiningInstruction f.graph =
          some (ti, .tupleInst elems) → functionDirectResults f = elems)
    ∧ ((∀ (ti : Nat) (elems : List SILValue),
          f.returnOperand.getDefiningInstruction f.graph ≠
            some (ti, .tupleInst elems)) →
        functionDirectResults f = [f.returnOperand]) := by
  rw [collectAllFormalResultsInTypeOrder,
    mergeFormalResults_eq_collectLoop (fun _ => false) f.resultConvs 0
      (functionDirectResults f) f.indirectResults] at h
  cases hloop : collectLoop (fun _ => false) f.resultConvs 0
      (functionDirectResults f) f.indirectResults with
  | error e => rw [hloop] at h; exact absurd h (by simp [Except.map])
  | ok p =>
    obtain ⟨res0, ris0⟩ := p
    rw [hloop] at h
    simp only [Except.map, Except.ok.injEq] at h
    subst h
    refine ⟨(collectLoop_ok_counts (fun _ => false) f.resultConvs 0
        (functionDirectResults f) f.indirectResults res0 ris0 hloop).1,
      fun k r hk => collectLoop_ok_getEq (fun _ => false) f.resultConvs 0
        (functionDirectResults f) f.indirectResults res0 ris0 hloop k r hk,
      ?_, ?_⟩
    · intro ti elems hdef
      simp only [functionDirectResults, hdef]
    · intro hne
      simp only [functionDirectResults]

/-- Witness for C10: a tuple return with conventions direct, indirect,
direct merges the two tuple elements around the indirect result argument. -/
theorem collectAllFormalResultsInTypeOrder_spec_witness :
    collectAllFormalResultsInTypeOrder scenarioC10Function =
      .ok [.funcArg 1, .funcArg 5, .funcArg 2]
    ∧ ([SILValue.funcArg 1, SILValue.funcArg 5, SILValue.funcArg 2].length =
        scenarioC10Function.resultConvs.length) :=
  ⟨rfl,
    (collectAllFormalResultsInTypeOrder_spec scenarioC10Function
      [.funcArg 1, .funcArg 5, .funcArg 2] rfl).1⟩

/-- C5 (code bug): an address produced by pointer_to_address of a pointer
with no defining instruction deviates from the recognized allocation chain
(the spec-side chain predicate rejects every candidate allocation), yet
getAllocateUninitializedArrayIntrinsicElementAddress hits the LLVM
isa-on-null assertion instead of returning none. -/
theorem getAllocateElementAddress_nullDefiner_bug :
    (∀ ai : ApplyInst,
      arrayElementAddressChainSpec scenarioC5Graph scenarioC5Value ai = false)
    ∧ getAllocateUninitializedArrayIntrinsicElementAddress scenarioC5Graph
        scenarioC5Value = .error "isa used on a null pointer" :=
  ⟨fun _ => rfl, rfl⟩
